import Mathlib

/-!
Shallow embedding of the Hootux kernel fragments under verification:
the DMA ownership guard and physical region describer
(`kernel/src/mem/dma.rs`), the serial dispatcher FIFO/read/frame-control
paths (`kernel/src/serial/dispatcher.rs`), the boot-info frame allocator
(`src/mem.rs`) and the MMIO allocator (`kernel/src/allocator/alloc_interface.rs`).

Machine integers are modelled as `Nat` with explicit reductions modulo
`2 ^ 64` where u64 wrapping matters; fallible paths return `Option` /
`Except` / explicit outcome inductives; panics are explicit outcome
constructors.
-/

namespace Hootux

/-! ## DMA guard (`kernel/src/mem/dma.rs`)

`DmaGuard` holds an inner buffer and a lazily allocated shared atomic
flag (`lock : Option<Arc<AtomicBool>>`).  In a sequential model the flag
is `Option Bool`: `none` = never allocated, `some b` = allocated flag
holding `b`. -/

structure DmaGuard (C : Type) where
  inner : C
  lock : Option Bool
  deriving Repr, DecidableEq

namespace DmaGuard

/-- Source `DmaGuard::from(inner)` — fresh guard, no flag allocated (dma.rs lines 114-118). -/
def fromInner {C : Type} (c : C) : DmaGuard C := ⟨c, none⟩

/-- The value the code reads with `self.lock.take().is_some_and(|v| v.load(..))`:
`true` iff the shared flag is allocated and currently set. -/
def lockSet (l : Option Bool) : Bool := l.getD false

/-- Source `DmaClaimable::claim` for `DmaGuard` (dma.rs lines 75-89).
If the flag exists, perform a compare-and-swap `false → true`; a set flag
makes the CAS fail and `claim` returns `None` (modelled as result `false`)
leaving the state unchanged.  If the flag does not exist it is lazily
allocated already set.  On success a `BorrowedDmaGuard` sharing the flag
is handed out (result `true`). -/
def claimOp {C : Type} (g : DmaGuard C) : Bool × DmaGuard C :=
  match g.lock with
  | some b => if b then (false, g) else (true, { g with lock := some true })
  | none => (true, { g with lock := some true })

/-- Source `Drop for BorrowedDmaGuard` (dma.rs lines 108-112): store `false`
into the shared flag. -/
def dropBorrowed {C : Type} (g : DmaGuard C) : DmaGuard C :=
  { g with lock := g.lock.map fun _ => false }

/-- Source `DmaClaimable::query_owned` for `DmaGuard` (dma.rs lines 91-94):
`self.lock.as_ref().is_some_and(|v| v.load(Acquire))`. -/
def queryOwned {C : Type} (g : DmaGuard C) : Bool := lockSet g.lock

/-- Source `Drop for DmaGuard` (dma.rs lines 14-21): returns `true` iff the
destructor drops (frees) the inner buffer, which happens exactly when
`lock.take().is_some_and(load)` is `false`; otherwise the buffer is
intentionally leaked. -/
def dropFreesInner {C : Type} (g : DmaGuard C) : Bool := !lockSet g.lock

/-- Result of `DmaGuard::unwrap`. -/
inductive UnwrapResult (C : Type) where
  | panicked
  | value (c : C)
  deriving Repr, DecidableEq

/-- Source `DmaGuard::unwrap` (dma.rs lines 24-32): panics while the shared flag
is set, otherwise returns the wrapped buffer. -/
def unwrapOp {C : Type} (g : DmaGuard C) : UnwrapResult C :=
  if lockSet g.lock then .panicked else .value g.inner

/-- A guard state together with the ghost number of live
`BorrowedDmaGuard` views sharing its flag. -/
structure Config (C : Type) where
  guard : DmaGuard C
  borrows : Nat
  deriving Repr, DecidableEq

/-- Sequential operational semantics of a guard: start from a fresh
guard; `claim` hands out one borrowed view when it succeeds; dropping the
live borrowed view clears the shared flag. -/
inductive Reach (C : Type) : Config C → Prop where
  | init (c : C) : Reach C ⟨fromInner c, 0⟩
  | claimStep {cfg : Config C} (h : Reach C cfg) :
      Reach C ⟨(claimOp cfg.guard).2,
        if (claimOp cfg.guard).1 then cfg.borrows + 1 else cfg.borrows⟩
  | dropBorrowStep {cfg : Config C} (h : Reach C cfg) (hb : cfg.borrows = 1) :
      Reach C ⟨dropBorrowed cfg.guard, 0⟩

/-- Invariant: at most one borrowed view is ever live, and the shared flag
is set exactly while one is. -/
theorem reach_invariant {C : Type} {cfg : Config C} (h : Reach C cfg) :
    cfg.borrows ≤ 1 ∧ (lockSet cfg.guard.lock = true ↔ cfg.borrows = 1) := by
  induction h with
  | init c => simp [fromInner, lockSet]
  | @claimStep cfg0 h ih =>
    rcases ih with ⟨hle, hiff⟩
    rcases hl : cfg0.guard.lock with _ | b
    · simp [claimOp, hl, lockSet] at hiff ⊢
      omega
    · rcases b with _ | _
      · simp [claimOp, hl, lockSet] at hiff ⊢
        omega
      · simp [claimOp, hl, lockSet] at hiff ⊢
        omega
  | @dropBorrowStep cfg0 h hb ih =>
    rcases hl : cfg0.guard.lock with _ | b <;>
      simp [dropBorrowed, hl, lockSet]

/-- C2: on any `DmaGuard`, once `claim()` succeeds, every further `claim()`
fails (returns `None`) and leaves the guard unchanged for as long as the
borrowed view is alive; dropping the borrowed view (which clears the shared
flag) makes a subsequent `claim()` succeed again. -/
theorem claim_exclusive_until_borrow_dropped {C : Type} (g : DmaGuard C)
    (h : (claimOp g).1 = true) :
    (claimOp (claimOp g).2).1 = false ∧
    (claimOp (claimOp g).2).2 = (claimOp g).2 ∧
    (claimOp (dropBorrowed (claimOp g).2)).1 = true := by
  rcases hl : g.lock with _ | b
  · simp [claimOp, dropBorrowed, hl]
  · rcases b with _ | _
    · simp [claimOp, dropBorrowed, hl]
    · simp [claimOp, hl] at h

theorem claim_exclusive_until_borrow_dropped_witness :
    (claimOp (claimOp (fromInner (0 : Nat))).2).1 = false ∧
    (claimOp (claimOp (fromInner (0 : Nat))).2).2 = (claimOp (fromInner (0 : Nat))).2 ∧
    (claimOp (dropBorrowed (claimOp (fromInner (0 : Nat))).2)).1 = true :=
  claim_exclusive_until_borrow_dropped (fromInner 0) (by decide)

/-- C3: dropping a `DmaGuard` frees the wrapped inner buffer exactly when no
claim is outstanding (no live borrowed view); while a claim is outstanding the
destructor intentionally leaks the buffer. -/
theorem drop_leaks_inner_iff_claimed {C : Type} {cfg : Config C}
    (h : Reach C cfg) :
    dropFreesInner cfg.guard = false ↔ cfg.borrows = 1 := by
  have hinv := reach_invariant h
  rcases hinv with ⟨_, hiff⟩
  constructor
  · intro hf
    apply hiff.mp
    simpa [dropFreesInner] using hf
  · intro hb
    have := hiff.mpr hb
    simp [dropFreesInner, this]

theorem drop_leaks_inner_iff_claimed_witness :
    dropFreesInner (DmaGuard.mk (0 : Nat) (some true)) = false := by
  have h : Reach Nat ⟨⟨0, some true⟩, 1⟩ := Reach.claimStep (Reach.init 0)
  exact (drop_leaks_inner_iff_claimed h).mpr rfl

/-- C4: `DmaGuard::unwrap()` panics if and only if a claim is currently
outstanding (the shared flag is set); with no outstanding claim it returns
the wrapped buffer. -/
theorem unwrap_panics_iff_claimed {C : Type} {cfg : Config C}
    (h : Reach C cfg) :
    (unwrapOp cfg.guard = .panicked ↔ cfg.borrows = 1) ∧
    (cfg.borrows = 0 → unwrapOp cfg.guard = .value cfg.guard.inner) := by
  have hinv := reach_invariant h
  rcases hinv with ⟨hle, hiff⟩
  constructor
  · constructor
    · intro hp
      apply hiff.mp
      by_contra hns
      simp [unwrapOp, Bool.not_eq_true] at hns
      simp [unwrapOp, hns] at hp
    · intro hb
      have := hiff.mpr hb
      simp [unwrapOp, this]
  · intro hb
    have hns : lockSet cfg.guard.lock = false := by
      rcases hq : lockSet cfg.guard.lock with _ | _
      · rfl
      · exact absurd (hiff.mp hq) (by omega)
    simp [unwrapOp, hns]

theorem unwrap_panics_iff_claimed_witness :
    unwrapOp (DmaGuard.mk (0 : Nat) (some true)) = .panicked ∧
    unwrapOp (fromInner (1 : Nat)) = .value 1 := by
  have h1 : Reach Nat ⟨⟨0, some true⟩, 1⟩ := Reach.claimStep (Reach.init 0)
  have h2 : Reach Nat ⟨fromInner 1, 0⟩ := Reach.init 1
  exact ⟨(unwrap_panics_iff_claimed h1).1.mpr rfl,
    (unwrap_panics_iff_claimed h2).2 rfl⟩

/-- C10: `query_owned()` returns `true` exactly when an outstanding claim
exists (the shared flag is allocated and set) — in particular `false` on a
fresh, never-claimed guard — and `claim()` succeeds exactly from states
where `query_owned()` returns `false`. -/
theorem query_owned_true_iff_claimed {C : Type} {cfg : Config C}
    (h : Reach C cfg) :
    (queryOwned cfg.guard = true ↔ cfg.borrows = 1) ∧
    ((claimOp cfg.guard).1 = true ↔ queryOwned cfg.guard = false) := by
  have hinv := reach_invariant h
  rcases hinv with ⟨_, hiff⟩
  refine ⟨hiff, ?_⟩
  rcases hl : cfg.guard.lock with _ | b
  · simp [claimOp, queryOwned, lockSet, hl]
  · rcases b with _ | _ <;> simp [claimOp, queryOwned, lockSet, hl]

theorem query_owned_true_iff_claimed_witness :
    (queryOwned (fromInner (0 : Nat)) = true ↔ (0 : Nat) = 1) ∧
    ((claimOp (fromInner (0 : Nat))).1 = true ↔
      queryOwned (fromInner (0 : Nat)) = false) :=
  query_owned_true_iff_claimed (Reach.init 0)

end DmaGuard

/-! ## Physical region describer (`kernel/src/mem/dma.rs` lines 134-182)

A DMA target is abstracted as its byte length together with the
per-byte-index physical translation
(`crate::mem::mem_map::translate_ptr(data.get(index)?)`, dma.rs 142-147).
`u64` subtraction in the contiguity guard wraps, which is modelled with an
explicit reduction modulo `2 ^ 64`.  The source loops are compiled to
fuel-indexed recursion; the fuel bounds chosen are large enough that they
are never exhausted on the traced executions. -/

def PAGE_SIZE : Nat := 4096

/-- A DMA buffer as seen by `PhysicalRegionDescriber`: its length in bytes
and the physical address of each byte index (`none` when the page is not
mapped). -/
structure DmaBuf where
  len : Nat
  phys : Nat → Option Nat

namespace Prd

/-- Source `PhysicalRegionDescriber::next_chunk` (dma.rs 142-147):
`translate_ptr(data.get(index)?)`. -/
def nextChunk (b : DmaBuf) (index : Nat) : Option Nat :=
  if index < b.len then b.phys index else none

/-- The accumulation loop inside `Iterator::next` (dma.rs 159-173):
while the next page is physically contiguous (`addr - base == diff`,
wrapping u64 subtraction), advance `diff` by a page, clamping to the
buffer length; stop at a discontinuity, at an out-of-bounds index, or when
`diff` reaches the buffer length. -/
def prdLoop (b : DmaBuf) (base next : Nat) : Nat → Nat → Nat
  | 0, diff => diff
  | fuel + 1, diff =>
    match nextChunk b (diff + next) with
    | some addr =>
      if (addr % 2 ^ 64 + 2 ^ 64 - base % 2 ^ 64) % 2 ^ 64 = diff % 2 ^ 64 then
        let d2 := min (diff + PAGE_SIZE) b.len
        if d2 = b.len then d2 else prdLoop b base next fuel d2
      else diff
    | none => diff

/-- Source `Iterator::next` for `PhysicalRegionDescriber` (dma.rs 152-181).
Returns `(addr, size, next_state)`.  Note the initial stride is computed
by the source as `PAGE_SIZE - (base & (PAGE_SIZE-1)).min(data.len())`:
the `.min` clamp applies to the intra-page offset, not to the whole
difference. -/
def prdNext (b : DmaBuf) (next : Nat) : Option (Nat × Nat × Nat) :=
  match nextChunk b next with
  | none => none
  | some base =>
    let diff0 := PAGE_SIZE - min (base % PAGE_SIZE) b.len
    let diff := prdLoop b base next (b.len + 1) diff0
    some (base, diff, next + diff)

/-- Driving the iterator to exhaustion, collecting `(addr, size)` pairs. -/
def prdListAux (b : DmaBuf) : Nat → Nat → List (Nat × Nat)
  | 0, _ => []
  | fuel + 1, next =>
    match prdNext b next with
    | none => []
    | some (a, d, n2) => (a, d) :: prdListAux b fuel n2

/-- The full description sequence produced by `DmaTarget::prd()`
(dma.rs 211-217 starts the describer at offset 0). -/
def prd (b : DmaBuf) : List (Nat × Nat) := prdListAux b (b.len + 1) 0

/-- Total size described by a sequence of physical region descriptions. -/
def sumSizes (l : List (Nat × Nat)) : Nat := (l.map Prod.snd).sum

/-- A 1-byte buffer whose single byte sits at physical address 0 (the
start of a physical page). -/
def overrunBuf : DmaBuf := ⟨1, fun _ => some 0⟩

/-- C1 (failing-input evaluation): on a 1-byte buffer starting at a
page-aligned physical address the describer emits a single description of
size `PAGE_SIZE`, so the description sizes sum to 4096, not to the buffer
length 1.  The misplaced clamp in the initial stride
(`PAGE_SIZE - offset.min(len)` instead of `(PAGE_SIZE - offset).min(len)`,
dma.rs line 157) makes the first chunk over-describe every buffer that
ends before its first page boundary. -/
theorem prd_overdescribes_small_buffer :
    prd overrunBuf = [(0, 4096)] ∧
    sumSizes (prd overrunBuf) = 4096 ∧
    overrunBuf.len = 1 := by
  refine ⟨?_, ?_, rfl⟩ <;> rfl

end Prd

/-! ## Boot-info frame allocator (`src/mem.rs` lines 14-52)

`BootInfoFrameAllocator` scans the bootloader memory map: the usable-frame
sequence filters regions of kind `Usable`, steps through each region's
`start..end` address range by 4096, and aligns each address down to its
4096-byte frame (`PhysFrame::containing_address`).  `allocate_frame`
returns the `next`-th element of that sequence and increments `next`. -/

namespace Mem

inductive MemoryRegionKind where
  | usable
  | bootloader
  | unknownBios
  | unknownUefi
  deriving Repr, DecidableEq

/-- Source `bootloader::boot_info::MemoryRegion`; the Rust field `end` is spelled
`stop` because `end` is reserved in Lean. -/
structure MemoryRegion where
  start : Nat
  stop : Nat
  kind : MemoryRegionKind
  deriving Repr, DecidableEq

/-- Source `(start..end).step_by(4096)`. -/
def stepBy4096 (s e : Nat) : List Nat :=
  (List.range ((e - s + 4095) / 4096)).map fun k => s + 4096 * k

/-- The start address of `PhysFrame::containing_address(PhysAddr::new a)`. -/
def alignDown4096 (a : Nat) : Nat := 4096 * (a / 4096)

/-- Source `BootInfoFrameAllocator::usable_frames` (mem.rs 34-44). -/
def usableFrames (mm : List MemoryRegion) : List Nat :=
  (mm.filter fun r => r.kind == MemoryRegionKind.usable).flatMap
    fun r => (stepBy4096 r.start r.stop).map alignDown4096

structure BootInfoFrameAllocator where
  memoryMap : List MemoryRegion
  next : Nat
  deriving Repr, DecidableEq

/-- Source `BootInfoFrameAllocator::init` (mem.rs 26-31). -/
def initAlloc (mm : List MemoryRegion) : BootInfoFrameAllocator := ⟨mm, 0⟩

/-- Source `allocate_frame` (mem.rs 46-52): `usable_frames().nth(next)`, then
`next += 1` (the allocator has no deallocation path at all, so a frame
handed back by a caller is never re-issued by this allocator). -/
def allocateFrame (a : BootInfoFrameAllocator) :
    Option Nat × BootInfoFrameAllocator :=
  ((usableFrames a.memoryMap)[a.next]?, ⟨a.memoryMap, a.next + 1⟩)

/-- Allocator state after `i` calls to `allocate_frame` starting from
`init mm`. -/
def allocState (mm : List MemoryRegion) : Nat → BootInfoFrameAllocator
  | 0 => initAlloc mm
  | i + 1 => (allocateFrame (allocState mm i)).2

/-- Result of the `i`-th call (counting from 0) to `allocate_frame`. -/
def callResult (mm : List MemoryRegion) (i : Nat) : Option Nat :=
  (allocateFrame (allocState mm i)).1

theorem allocState_eq (mm : List MemoryRegion) (i : Nat) :
    allocState mm i = ⟨mm, i⟩ := by
  induction i with
  | zero => rfl
  | succ k ih => simp [allocState, allocateFrame, ih]

theorem mem_stepBy4096 {s e x : Nat} (hx : x ∈ stepBy4096 s e) :
    s ≤ x ∧ x < e := by
  rcases List.mem_map.mp hx with ⟨k, hk, rfl⟩
  rw [List.mem_range] at hk
  have h1 : 4096 * ((e - s + 4095) / 4096) ≤ e - s + 4095 :=
    Nat.mul_div_le _ 4096
  have h2 : 4096 * (k + 1) ≤ 4096 * ((e - s + 4095) / 4096) :=
    Nat.mul_le_mul_left _ hk
  omega

theorem stepBy4096_nodup (s e : Nat) : (stepBy4096 s e).Nodup := by
  refine (List.nodup_range _).map ?_
  intro a b hab
  dsimp only at hab
  omega

theorem map_alignDown_of_aligned {s e : Nat} (hs : s % 4096 = 0) :
    (stepBy4096 s e).map alignDown4096 = stepBy4096 s e := by
  unfold stepBy4096
  rw [List.map_map]
  refine List.map_congr_left ?_
  intro k _
  simp only [Function.comp_apply, alignDown4096]
  omega

theorem usableFrames_nodup (mm : List MemoryRegion)
    (halign : ∀ r ∈ mm, r.kind = MemoryRegionKind.usable → r.start % 4096 = 0)
    (hdisj : (mm.filter fun r => r.kind == MemoryRegionKind.usable).Pairwise
      fun a b => a.stop ≤ b.start ∨ b.stop ≤ a.start) :
    (usableFrames mm).Nodup := by
  unfold usableFrames
  rw [List.nodup_flatMap]
  have haligned : ∀ r ∈ mm.filter (fun r => r.kind == MemoryRegionKind.usable),
      r.start % 4096 = 0 := by
    intro r hr
    have hmem := List.mem_filter.mp hr
    exact halign r hmem.1 (by simpa using hmem.2)
  constructor
  · intro r hr
    rw [map_alignDown_of_aligned (haligned r hr)]
    exact stepBy4096_nodup _ _
  · refine hdisj.imp_of_mem ?_
    intro a b ha hb hR
    simp only [Function.onFun]
    intro x hxa hxb
    rw [map_alignDown_of_aligned (haligned a ha)] at hxa
    rw [map_alignDown_of_aligned (haligned b hb)] at hxb
    have h1 := mem_stepBy4096 hxa
    have h2 := mem_stepBy4096 hxb
    rcases hR with h | h <;> omega

/-- C7: the `i`-th call (counting from 0) to
`BootInfoFrameAllocator::allocate_frame` returns the `i`-th 4096-byte
frame of the usable-frame sequence — frames drawn, in memory-map order,
only from regions of kind `Usable`, stepping by 4096 from each usable
region's start — and returns `none` once fewer than `i + 1` such frames
exist.  Provided the usable regions are 4096-aligned and pairwise
disjoint, no frame is ever returned twice; since the allocator has no
deallocation path and only advances `next`, freed frames are never handed
out again. -/
theorem allocate_frame_returns_ith_usable (mm : List MemoryRegion) (i j : Nat)
    (halign : ∀ r ∈ mm, r.kind = MemoryRegionKind.usable → r.start % 4096 = 0)
    (hdisj : (mm.filter fun r => r.kind == MemoryRegionKind.usable).Pairwise
      fun a b => a.stop ≤ b.start ∨ b.stop ≤ a.start) :
    callResult mm i = (usableFrames mm)[i]? ∧
    (callResult mm i = none ↔ (usableFrames mm).length ≤ i) ∧
    (∀ f, callResult mm i = some f → callResult mm j = some f → i = j) := by
  have hc : ∀ n, callResult mm n = (usableFrames mm)[n]? := by
    intro n
    unfold callResult
    rw [allocState_eq]
    rfl
  refine ⟨hc i, ?_, ?_⟩
  · rw [hc i]
    exact List.getElem?_eq_none_iff
  · intro f hi hj
    have hnd := usableFrames_nodup mm halign hdisj
    have hilen : i < (usableFrames mm).length := by
      rw [hc i] at hi
      exact (List.getElem?_eq_some_iff.mp hi).1
    refine List.getElem?_inj hilen hnd ?_
    rw [← hc i, ← hc j, hi, hj]

/-- A small boot memory map used to exercise the frame allocator. -/
def demoMap : List MemoryRegion :=
  [⟨0, 8192, MemoryRegionKind.usable⟩,
   ⟨8192, 12288, MemoryRegionKind.bootloader⟩,
   ⟨16384, 20480, MemoryRegionKind.usable⟩]

theorem allocate_frame_returns_ith_usable_witness :
    callResult demoMap 2 = (usableFrames demoMap)[2]? ∧
    (callResult demoMap 2 = none ↔ (usableFrames demoMap).length ≤ 2) ∧
    (∀ f, callResult demoMap 2 = some f → callResult demoMap 0 = some f →
      2 = 0) :=
  allocate_frame_returns_ith_usable demoMap 2 0 (by decide) (by decide)

end Mem

/-! ## Serial dispatcher (`kernel/src/serial/dispatcher.rs`) -/

namespace Serial

/-- Modelled from the spec: `crate::fs::device::OpenMode` is not among the
sources.  Section 3 of the spec records a per-direction open-mode lock per
dispatcher handle; the dispatcher code uses `OpenMode::Locked` as the
closed/default state and queries the direction with `is_read` /
`is_write`. -/
inductive OpenMode where
  | locked
  | read
  | write
  | readWrite
  deriving Repr, DecidableEq

/-- Source `OpenMode::is_read`: the mode grants read access. -/
def OpenMode.isRead : OpenMode → Bool
  | .read => true
  | .readWrite => true
  | _ => false

/-- Source `OpenMode::is_write`: the mode grants write access. -/
def OpenMode.isWrite : OpenMode → Bool
  | .write => true
  | .readWrite => true
  | _ => false

/-- Modelled from the spec: the `crate::fs::IoError` taxonomy of section 7;
only variants produced on the dispatcher paths are included. -/
inductive IoError where
  | outOfMemory
  | busy
  | mediaError
  | invalidData
  | notReady
  | notSupported
  | endOfFile
  deriving Repr, DecidableEq

/-- Source `Fifo::open` for `SerialDispatcher` (dispatcher.rs 181-192): fails with
`MediaError` when the controller is gone; a read-granting mode must win a
compare-and-swap `false → true` on the shared `stream_lock`, failing with
`Busy` otherwise; on success the handle records `mode` in `fifo_lock`.
Returns the new `(stream_lock, fifo_lock)` pair. -/
def fifoOpen (mediaPresent : Bool) (streamLock : Bool) (mode : OpenMode) :
    Except IoError (Bool × OpenMode) :=
  if !mediaPresent then .error .mediaError
  else if mode.isRead then
    if streamLock then .error .busy
    else .ok (true, mode)
  else .ok (streamLock, mode)

/-- Source `Fifo::close` for `SerialDispatcher` (dispatcher.rs 194-206): fails with
`NotReady` when the handle is already in the `Locked` state; clears the
shared `stream_lock` only when the recorded mode grants write access; the
handle always returns to `Locked`. -/
def fifoClose (streamLock : Bool) (fifoLock : OpenMode) :
    Except IoError (Bool × OpenMode) :=
  if fifoLock = .locked then .error .notReady
  else .ok ((if fifoLock.isWrite then false else streamLock), .locked)

/-- C9: opening a dispatcher handle for read sets the shared `stream_lock`
by compare-and-swap, but `close()` clears that flag only for write-granting
modes; hence after a read-only open followed by `close()` the flag stays
set and every later read-granting open — on this handle or any clone
sharing the flag — fails with `Busy`. -/
theorem read_open_close_wedges_stream_lock (mode : OpenMode)
    (hr : mode.isRead = true) (hw : mode.isWrite = false) :
    fifoOpen true false mode = .ok (true, mode) ∧
    fifoClose true mode = .ok (true, .locked) ∧
    (∀ m2 : OpenMode, m2.isRead = true → fifoOpen true true m2 = .error .busy) := by
  have hml : mode ≠ .locked := by
    intro h
    rw [h] at hr
    simp [OpenMode.isRead] at hr
  refine ⟨?_, ?_, ?_⟩
  · simp [fifoOpen, hr]
  · simp [fifoClose, hml, hw]
  · intro m2 h2
    simp [fifoOpen, h2]

theorem read_open_close_wedges_stream_lock_witness :
    fifoOpen true false .read = .ok (true, .read) ∧
    fifoClose true .read = .ok (true, .locked) ∧
    (∀ m2 : OpenMode, m2.isRead = true → fifoOpen true true m2 = .error .busy) :=
  read_open_close_wedges_stream_lock .read (by decide) (by decide)

/-- State of a pending serial read: the registered target buffer length
(`buff.len()`), the count of bytes received into it so far (the counter
stored in `rx_tgt`), and whether the line currently reports idle
(`rx_idle`). -/
structure RxState where
  buffLen : Nat
  received : Nat
  rxIdle : Bool
  deriving Repr, DecidableEq

/-- Result of polling `ReadFut`: ready with the returned slice length,
ready with an error, or pending. -/
inductive PollRes where
  | readyOk (len : Nat)
  | readyErr (e : IoError)
  | pending
  deriving Repr, DecidableEq

/-- Source `Future::poll` for `ReadFut` (dispatcher.rs 292-320): `NotReady` unless
the handle mode grants read, `MediaError` if the controller is gone;
otherwise ready with the whole buffer when the received count equals the
buffer length, ready with the bytes received so far when the line is idle
and at least one byte has arrived, and pending in every other state. -/
def pollRead (fifoLock : OpenMode) (mediaPresent : Bool) (rx : RxState) :
    PollRes :=
  if fifoLock.isRead then
    if mediaPresent then
      if rx.received = rx.buffLen then .readyOk rx.buffLen
      else if rx.rxIdle && decide (0 < rx.received) then .readyOk rx.received
      else .pending
    else .readyErr .mediaError
  else .readyErr .notReady

/-- How `Read::read` for `SerialDispatcher` returns (dispatcher.rs 232-277):
an immediate error, immediate completion with a full buffer, a suspended
`ReadFut` after registering `(buff, count)` in `rx_tgt`, or an
out-of-bounds panic (`buff[count]` with `count ≥ buff.len()`, reachable
only for a zero-length buffer with a byte available). -/
inductive ReadStart where
  | immediateErr (e : IoError)
  | immediateFull
  | suspended (count : Nat)
  | panicked
  deriving Repr, DecidableEq

/-- The synchronous fill loop of `Read::read` (dispatcher.rs 250-257):
drain buffered bytes (`avail` of them) into the buffer; return full as
soon as the count reaches the buffer length, otherwise register the count
reached when the hardware buffer runs dry. -/
def fillLoop (buffLen : Nat) : Nat → Nat → ReadStart
  | 0, count => .suspended count
  | a + 1, count =>
    if buffLen ≤ count then .panicked
    else if buffLen ≤ count + 1 then .immediateFull
    else fillLoop buffLen a (count + 1)

/-- Source `Read::read` for `SerialDispatcher` (dispatcher.rs 232-277). `rxBusy`
is whether `rx_tgt` already holds another pending read. -/
def serialRead (fifoLock : OpenMode) (mediaPresent : Bool) (rxBusy : Bool)
    (avail buffLen : Nat) : ReadStart :=
  if fifoLock.isRead then
    if mediaPresent then
      if rxBusy then .immediateErr .busy
      else fillLoop buffLen avail 0
    else .immediateErr .mediaError
  else .immediateErr .notReady

theorem fillLoop_suspended_le {buffLen : Nat} :
    ∀ {avail count i : Nat}, count ≤ buffLen →
      fillLoop buffLen avail count = .suspended i → i ≤ buffLen := by
  intro avail
  induction avail with
  | zero =>
    intro count i hle h
    simp only [fillLoop] at h
    cases h
    exact hle
  | succ a ih =>
    intro count i hle h
    simp only [fillLoop] at h
    by_cases h1 : buffLen ≤ count
    · simp [h1] at h
    · by_cases h2 : buffLen ≤ count + 1
      · simp [h1, h2] at h
      · simp only [h1, h2, if_false] at h
        exact ih (by omega) h

/-- C5: a serial read started through `Read::read` on a handle opened for
read with no other read pending either completes synchronously with a full
buffer, or suspends with at most `buff.len()` bytes registered; polling
the suspended operation is ready exactly when the whole buffer has been
filled or the line is idle with at least one byte received — returning
exactly the bytes received so far — and pending in every other state. -/
theorem poll_read_completes_iff_full_or_idle (m : OpenMode) (rx : RxState)
    (avail : Nat) (hr : m.isRead = true) :
    (pollRead m true rx =
      if rx.received = rx.buffLen ∨ (rx.rxIdle = true ∧ 1 ≤ rx.received)
      then .readyOk rx.received
      else .pending) ∧
    (∀ i, serialRead m true false avail rx.buffLen = .suspended i →
      i ≤ rx.buffLen) := by
  constructor
  · simp only [pollRead, hr, if_true]
    by_cases h1 : rx.received = rx.buffLen
    · simp [h1]
    · by_cases h2 : rx.rxIdle <;> by_cases h3 : 1 ≤ rx.received <;>
        simp [h1, h2, h3] <;> omega
  · intro i h
    simp only [serialRead, hr, if_true, if_false, Bool.false_eq_true] at h
    exact fillLoop_suspended_le (Nat.zero_le _) h

theorem poll_read_completes_iff_full_or_idle_witness :
    (pollRead .read true ⟨4, 2, true⟩ =
      if (2 : Nat) = 4 ∨ (true = true ∧ 1 ≤ (2 : Nat))
      then .readyOk 2
      else .pending) ∧
    (∀ i, serialRead .read true false 2 (RxState.mk 4 2 true).buffLen =
      .suspended i → i ≤ (RxState.mk 4 2 true).buffLen) :=
  poll_read_completes_iff_full_or_idle .read ⟨4, 2, true⟩ 2 (by decide)

/-! ### Frame-control B-file write (`dispatcher.rs` 440-508) -/

inductive DataBits where
  | five
  | six
  | seven
  | eight
  deriving Repr, DecidableEq

inductive Parity where
  | pnone
  | odd
  | mark
  | even
  | space
  deriving Repr, DecidableEq

inductive StopBits where
  | one
  | two
  deriving Repr, DecidableEq

/-- Outcome of `Write::write` for `FrameCtlBFile`: success carries the
divisor and char mode written to the hardware plus the returned byte
count; failures carry no side effect on the port configuration (the
`set_char_mode` / `set_divisor` calls only happen on the success path,
dispatcher.rs 502-505). -/
inductive FrameWrite where
  | ok (divisor : Nat) (bits : DataBits) (parity : Parity) (stop : StopBits)
      (ret : Nat)
  | errInvalidData
  | errMediaError
  | panicDivByZero
  deriving Repr, DecidableEq

def FrameWrite.isOk : FrameWrite → Bool
  | .ok _ _ _ _ _ => true
  | _ => false

/-- Strip one optional leading `'+'` (accepted by Rust's unsigned
`str::parse`). -/
def stripPlus (cs : List Char) : List Char :=
  match cs with
  | c :: rest => if c = '+' then rest else cs
  | [] => []

/-- Rust `str::parse::<u32>`: an optional `'+'` sign followed by at least
one ASCII digit, rejecting values that overflow 32 bits. -/
def parseU32 (cs : List Char) : Option Nat :=
  let ds := stripPlus cs
  if ds.isEmpty then none
  else if ds.all Char.isDigit then
    let v := ds.foldl (fun a c => a * 10 + (c.toNat - 48)) 0
    if v < 2 ^ 32 then some v else none
  else none

/-- Source `s.split_at(s.find('-')?)` at character level: split at the first
`'-'`, returning the characters before it and the characters after it
(the Rust `frame` slice is the `'-'` followed by the second component). -/
def splitDash : List Char → Option (List Char × List Char)
  | [] => none
  | c :: rest =>
    if c = '-' then some ([], rest)
    else (splitDash rest).map fun p => (c :: p.1, p.2)

/-- The rounded-divisor computation (dispatcher.rs 454-466):
`div_high = (115200 << 16) / baud`, rounded half-up on the low 16 bits.
The caller must rule out `baud = 0` (the source divides unchecked). -/
def divisorFor (baud : Nat) : Nat :=
  if 32767 < (115200 * 2 ^ 16) / baud % 2 ^ 16
  then (115200 * 2 ^ 16) / baud / 2 ^ 16 + 1
  else (115200 * 2 ^ 16) / baud / 2 ^ 16

/-- Data-bits character (dispatcher.rs 478-484). -/
def dataBitsOf : Char → Option DataBits
  | '5' => some .five
  | '6' => some .six
  | '7' => some .seven
  | '8' => some .eight
  | _ => none

/-- Parity character after `to_ascii_uppercase` (dispatcher.rs 486-494);
`Char.toUpper` is exactly Rust's `to_ascii_uppercase`. -/
def parityOf (c : Char) : Option Parity :=
  match c.toUpper with
  | 'N' => some .pnone
  | 'O' => some .odd
  | 'M' => some .mark
  | 'E' => some .even
  | 'S' => some .space
  | _ => none

/-- Stop-bits character (dispatcher.rs 496-500). -/
def stopOf : Char → Option StopBits
  | '1' => some .one
  | '2' => some .two
  | _ => none

/-- The `frame_fmt` extraction and classification (dispatcher.rs 470-500):
exactly three characters after the `'-'`, each classified; the three
classification failures all produce the same `InvalidData` error, so they
are collapsed into one `Option`. -/
def frameParse (rest : List Char) : Option (DataBits × Parity × StopBits) :=
  match rest with
  | [c1, c2, c3] =>
    match dataBitsOf c1, parityOf c2, stopOf c3 with
    | some b, some p, some st => some (b, p, st)
    | _, _, _ => none
  | _ => none

/-- UTF-8 byte length of a character sequence (Rust `str::len`). -/
def utf8Len (cs : List Char) : Nat := (cs.map Char.utf8Size).sum

/-- Source `Write::write` for `FrameCtlBFile` (dispatcher.rs 440-508), in source
order: find and split at `'-'`; parse the baud as `u32`; reject
`baud > 115200`; compute the divisor (unchecked division — `baud = 0`
panics); reject divisors over `u16::MAX`; reject a `frame` slice whose
byte length (`'-'` included) is not 4; extract and classify exactly three
characters; look up the hardware (gone ⇒ `MediaError`); on success report
the configuration written and return the full input byte count. -/
def frameCtlWrite (mediaPresent : Bool) (s : List Char) : FrameWrite :=
  match splitDash s with
  | none => .errInvalidData
  | some (baudStr, rest) =>
    match parseU32 baudStr with
    | none => .errInvalidData
    | some baud =>
      if 115200 < baud then .errInvalidData
      else if baud = 0 then .panicDivByZero
      else if 65535 < divisorFor baud then .errInvalidData
      else if 1 + utf8Len rest ≠ 4 then .errInvalidData
      else
        match frameParse rest with
        | none => .errInvalidData
        | some (b, p, st) =>
          if mediaPresent then .ok (divisorFor baud) b p st (utf8Len s)
          else .errMediaError

/-- The acceptance set asserted by the specification claim for C6:
`<baud>-<D><P><S>` with the baud parsing as an unsigned integer in
`[1, 115200]`, `D ∈ 5..8`, `P ∈ NOMES` case-insensitive, `S ∈ 1..2`. -/
def claimedFrameCtlAccepts (s : List Char) : Bool :=
  match splitDash s with
  | none => false
  | some (baudStr, rest) =>
    match parseU32 baudStr, rest with
    | some baud, [c1, c2, c3] =>
      decide (1 ≤ baud) && decide (baud ≤ 115200) &&
        (dataBitsOf c1).isSome && (parityOf c2).isSome && (stopOf c3).isSome
    | _, _ => false

theorem splitDash_eq_some {s bs rest : List Char} :
    splitDash s = some (bs, rest) ↔ (s = bs ++ '-' :: rest ∧ '-' ∉ bs) := by
  induction s generalizing bs with
  | nil =>
    constructor
    · intro h
      simp [splitDash] at h
    · rintro ⟨h, _⟩
      exact absurd h (by simp)
  | cons c t ih =>
    by_cases hc : c = '-'
    · subst hc
      simp only [splitDash, if_pos rfl, Option.some_inj, Prod.mk.injEq]
      constructor
      · rintro ⟨rfl, rfl⟩
        simp
      · rintro ⟨heq, hnin⟩
        rcases bs with _ | ⟨b, bs2⟩
        · simpa using heq
        · simp only [List.cons_append, List.cons.injEq] at heq
          exact absurd (heq.1 ▸ List.mem_cons_self b bs2) hnin
    · simp only [splitDash, if_neg hc, Option.map_eq_some']
      constructor
      · rintro ⟨⟨bs2, rest2⟩, hsp, heq⟩
        simp only [Prod.mk.injEq] at heq
        rcases heq with ⟨rfl, rfl⟩
        rcases ih.mp hsp with ⟨rfl, hnin⟩
        refine ⟨by simp, ?_⟩
        intro hmem
        rcases List.mem_cons.mp hmem with h | h
        · exact hc h.symm
        · exact hnin h
      · rintro ⟨heq, hnin⟩
        rcases bs with _ | ⟨b, bs2⟩
        · simp only [List.nil_append, List.cons.injEq] at heq
          exact absurd heq.1 hc
        · simp only [List.cons_append, List.cons.injEq] at heq
          rcases heq with ⟨rfl, heq2⟩
          have hnin2 : '-' ∉ bs2 := fun h => hnin (List.mem_cons_of_mem _ h)
          exact ⟨(bs2, rest), ih.mpr ⟨heq2, hnin2⟩, rfl⟩

theorem parseU32_no_dash {bs : List Char} {n : Nat}
    (h : parseU32 bs = some n) : '-' ∉ bs := by
  intro hmem
  have hmem2 : '-' ∈ stripPlus bs := by
    rcases bs with _ | ⟨c, t⟩
    · simp at hmem
    · simp only [stripPlus]
      by_cases hc : c = '+'
      · rw [if_pos hc]
        rcases List.mem_cons.mp hmem with h1 | h1
        · rw [hc] at h1
          simp at h1
        · exact h1
      · rw [if_neg hc]
        exact hmem
  unfold parseU32 at h
  by_cases he : (stripPlus bs).isEmpty
  · simp [he] at h
  · simp only [he, if_false, Bool.false_eq_true] at h
    by_cases hd : (stripPlus bs).all Char.isDigit
    · have := (List.all_eq_true.mp hd) _ hmem2
      simp at this
    · simp [hd] at h

theorem divisorFor_le_of_two_le {n : Nat} (h2 : 2 ≤ n) :
    divisorFor n ≤ 57601 := by
  unfold divisorFor
  have hd : (115200 * 2 ^ 16) / n ≤ (115200 * 2 ^ 16) / 2 :=
    Nat.div_le_div_left h2 (by norm_num)
  have hd2 : (115200 * 2 ^ 16) / 2 = 3774873600 := by norm_num
  have hd3 : (115200 * 2 ^ 16) / n / 2 ^ 16 ≤ 3774873600 / 2 ^ 16 :=
    Nat.div_le_div_right (by omega)
  have hd4 : (3774873600 : Nat) / 2 ^ 16 = 57600 := by norm_num
  split <;> omega

theorem frameParse_eq_some {rest : List Char} {b : DataBits} {p : Parity}
    {st : StopBits} :
    frameParse rest = some (b, p, st) ↔
      ∃ c1 c2 c3, rest = [c1, c2, c3] ∧ dataBitsOf c1 = some b ∧
        parityOf c2 = some p ∧ stopOf c3 = some st := by
  constructor
  · intro h
    unfold frameParse at h
    split at h
    · rename_i c1 c2 c3
      split at h
      · rename_i b2 p2 st2 hb hp hst
        simp only [Option.some_inj, Prod.mk.injEq] at h
        rcases h with ⟨rfl, rfl, rfl⟩
        exact ⟨c1, c2, c3, rfl, hb, hp, hst⟩
      · simp at h
    · simp at h
  · rintro ⟨c1, c2, c3, rfl, hb, hp, hst⟩
    simp [frameParse, hb, hp, hst]

theorem utf8Size_one_of_toNat_le {c : Char} (h : c.toNat ≤ 127) :
    c.utf8Size = 1 := by
  unfold Char.utf8Size
  rw [if_pos]
  rw [UInt32.le_def, BitVec.le_def]
  exact h

theorem dataBitsOf_toNat_le {c : Char} {b : DataBits}
    (h : dataBitsOf c = some b) : c.toNat ≤ 127 := by
  unfold dataBitsOf at h
  split at h <;> first
    | decide
    | simp at h

theorem parityOf_toNat_le {c : Char} {p : Parity}
    (h : parityOf c = some p) : c.toNat ≤ 127 := by
  by_cases hin : c.toNat ≥ 97 ∧ c.toNat ≤ 122
  · omega
  · have hu : c.toUpper = c := by
      unfold Char.toUpper
      rw [if_neg hin]
    unfold parityOf at h
    rw [hu] at h
    split at h <;> first
      | decide
      | simp at h

theorem stopOf_toNat_le {c : Char} {st : StopBits}
    (h : stopOf c = some st) : c.toNat ≤ 127 := by
  unfold stopOf at h
  split at h <;> first
    | decide
    | simp at h

theorem frameCtl_write_isOk_iff (s : List Char) :
    (frameCtlWrite true s).isOk = true ↔
      ∃ bs n c1 c2 c3, s = bs ++ '-' :: [c1, c2, c3] ∧
        parseU32 bs = some n ∧ 2 ≤ n ∧ n ≤ 115200 ∧
        (dataBitsOf c1).isSome = true ∧ (parityOf c2).isSome = true ∧
        (stopOf c3).isSome = true := by
  constructor
  · intro h
    unfold frameCtlWrite at h
    split at h
    · simp [FrameWrite.isOk] at h
    · rename_i bs rest hsp
      split at h
      · simp [FrameWrite.isOk] at h
      · rename_i n hpn
        by_cases h1 : 115200 < n
        · simp [h1, FrameWrite.isOk] at h
        · rw [if_neg h1] at h
          by_cases h0 : n = 0
          · simp [h0, FrameWrite.isOk] at h
          · rw [if_neg h0] at h
            by_cases hdv : 65535 < divisorFor n
            · simp [hdv, FrameWrite.isOk] at h
            · rw [if_neg hdv] at h
              by_cases hlen : 1 + utf8Len rest ≠ 4
              · simp [hlen, FrameWrite.isOk] at h
              · rw [if_neg hlen] at h
                split at h
                · simp [FrameWrite.isOk] at h
                · rename_i b p st hfp
                  rcases frameParse_eq_some.mp hfp with
                    ⟨c1, c2, c3, rfl, hb, hpp, hst⟩
                  rcases splitDash_eq_some.mp hsp with ⟨rfl, hnin⟩
                  have hn2 : 2 ≤ n := by
                    rcases Nat.lt_or_ge n 2 with hlt | hge
                    · interval_cases n
                      · exact absurd rfl h0
                      · exact absurd (by decide : 65535 < divisorFor 1) hdv
                    · exact hge
                  exact ⟨bs, n, c1, c2, c3, rfl, hpn, hn2, by omega,
                    by simp [hb], by simp [hpp], by simp [hst]⟩
  · rintro ⟨bs, n, c1, c2, c3, rfl, hpn, hn2, hn115, hb, hpp, hst⟩
    rcases Option.isSome_iff_exists.mp hb with ⟨b, hb2⟩
    rcases Option.isSome_iff_exists.mp hpp with ⟨p, hp2⟩
    rcases Option.isSome_iff_exists.mp hst with ⟨st, hst2⟩
    have hsp : splitDash (bs ++ '-' :: [c1, c2, c3]) = some (bs, [c1, c2, c3]) :=
      splitDash_eq_some.mpr ⟨rfl, parseU32_no_dash hpn⟩
    have hu1 := utf8Size_one_of_toNat_le (dataBitsOf_toNat_le hb2)
    have hu2 := utf8Size_one_of_toNat_le (parityOf_toNat_le hp2)
    have hu3 := utf8Size_one_of_toNat_le (stopOf_toNat_le hst2)
    have hlen : 1 + utf8Len [c1, c2, c3] = 4 := by
      simp [utf8Len, hu1, hu2, hu3]
    have hdv := divisorFor_le_of_two_le hn2
    have hfp : frameParse [c1, c2, c3] = some (b, p, st) :=
      frameParse_eq_some.mpr ⟨c1, c2, c3, rfl, hb2, hp2, hst2⟩
    simp only [frameCtlWrite, hsp, hpn, hfp]
    rw [if_neg (by omega : ¬115200 < n), if_neg (by omega : ¬n = 0),
      if_neg (by omega : ¬65535 < divisorFor n),
      if_neg (by omega : ¬1 + utf8Len [c1, c2, c3] ≠ 4)]
    simp [FrameWrite.isOk]

theorem frameCtl_write_panic_iff (s : List Char) :
    frameCtlWrite true s = .panicDivByZero ↔
      ∃ bs rest, s = bs ++ '-' :: rest ∧ parseU32 bs = some 0 := by
  constructor
  · intro h
    unfold frameCtlWrite at h
    split at h
    · simp at h
    · rename_i bs rest hsp
      split at h
      · simp at h
      · rename_i n hpn
        by_cases h1 : 115200 < n
        · simp [h1] at h
        · rw [if_neg h1] at h
          by_cases h0 : n = 0
          · rcases splitDash_eq_some.mp hsp with ⟨rfl, _⟩
            exact ⟨bs, rest, rfl, h0 ▸ hpn⟩
          · rw [if_neg h0] at h
            by_cases hdv : 65535 < divisorFor n
            · simp [hdv] at h
            · rw [if_neg hdv] at h
              by_cases hlen : 1 + utf8Len rest ≠ 4
              · simp [hlen] at h
              · rw [if_neg hlen] at h
                split at h
                · simp at h
                · simp at h
  · rintro ⟨bs, rest, rfl, hpn⟩
    have hsp : splitDash (bs ++ '-' :: rest) = some (bs, rest) :=
      splitDash_eq_some.mpr ⟨rfl, parseU32_no_dash hpn⟩
    simp only [frameCtlWrite, hsp, hpn]
    simp

theorem frameCtl_write_cases (s : List Char) :
    (frameCtlWrite true s).isOk = true ∨
      frameCtlWrite true s = .errInvalidData ∨
      frameCtlWrite true s = .panicDivByZero := by
  unfold frameCtlWrite
  split
  · simp
  · split
    · simp
    · split
      · simp
      · split
        · simp
        · split
          · simp
          · split
            · simp
            · split
              · simp
              · simp [FrameWrite.isOk]

/-- C6 (counterexample): the input `1-8N1` lies in the claimed acceptance
set (`baud` parses to 1 ∈ [1, 115200], `8`, `N`, `1` all valid), yet the
write rejects it with `InvalidData` because the rounded divisor 115200
does not fit in 16 bits; and the input `0-8N1`, which the claim says must
fail with `InvalidData`, instead reaches an unchecked division by zero
(a panic). -/
theorem frameCtl_write_claim_counterexample :
    claimedFrameCtlAccepts ("1-8N1".toList) = true ∧
    (frameCtlWrite true ("1-8N1".toList)).isOk = false ∧
    frameCtlWrite true ("1-8N1".toList) = .errInvalidData ∧
    claimedFrameCtlAccepts ("0-8N1".toList) = false ∧
    frameCtlWrite true ("0-8N1".toList) = .panicDivByZero := by
  refine ⟨?_, ?_, ?_, ?_, ?_⟩ <;> decide

/-- C6 (amended): with the controller present, a frame-control write
succeeds exactly for `<baud>-<D><P><S>` with the baud parsing as an
unsigned integer in `[2, 115200]` (so that the rounded divisor fits in 16
bits — baud 1 needs divisor 115200 and is rejected), `D ∈ 5..8`,
`P ∈ NOMES` case-insensitive and `S ∈ 1..2`; a baud parsing to 0 hits an
unchecked division by zero (panic); every other input is rejected with
`InvalidData` and no configuration change. -/
theorem frameCtl_write_amended (s : List Char) :
    ((frameCtlWrite true s).isOk = true ↔
      ∃ bs n c1 c2 c3, s = bs ++ '-' :: [c1, c2, c3] ∧
        parseU32 bs = some n ∧ 2 ≤ n ∧ n ≤ 115200 ∧
        (dataBitsOf c1).isSome = true ∧ (parityOf c2).isSome = true ∧
        (stopOf c3).isSome = true) ∧
    (frameCtlWrite true s = .panicDivByZero ↔
      ∃ bs rest, s = bs ++ '-' :: rest ∧ parseU32 bs = some 0) ∧
    ((frameCtlWrite true s).isOk = false →
      frameCtlWrite true s = .errInvalidData ∨
      frameCtlWrite true s = .panicDivByZero) := by
  refine ⟨frameCtl_write_isOk_iff s, frameCtl_write_panic_iff s, ?_⟩
  intro h
  rcases frameCtl_write_cases s with h1 | h1 | h1
  · rw [h1] at h
    cases h
  · exact Or.inl h1
  · exact Or.inr h1

end Serial

/-! ## MMIO allocator (`kernel/src/allocator/alloc_interface.rs`) -/

namespace Mmio

/-- Source `core::alloc::Layout`. -/
structure Layout where
  size : Nat
  align : Nat
  deriving Repr, DecidableEq

/-- Modelled from the spec: the collaborators of `MmioAlloc` —
`COMBINED_ALLOCATOR`'s `virt_allocate` / `virt_deallocate` and
`SYS_MAPPER`'s `map_to` / `unmap` — are outside the given sources
(spec sections 4.1-4.2).  The virtual allocator is modelled as a
page-granular bump allocator recording returned ranges, and the mapper as
a finite list of virtual-page ↦ physical-frame mappings.  The state holds
no memory contents at all: an MMIO mapping carries no copyable bytes. -/
structure SysState where
  virtCursor : Nat
  mapped : List (Nat × Nat)
  freedVirt : List (Nat × Layout)
  deriving Repr, DecidableEq

/-- Source `MmioAlloc::get_page_range` (alloc_interface.rs 53-60): the inclusive
page range from `containing(addr)` to `containing(addr + size - 1)`,
as a list of page indices. -/
def pageRange (addr size : Nat) : List Nat :=
  (List.range ((addr + size - 1) / 4096 + 1 - addr / 4096)).map
    fun k => addr / 4096 + k

/-- Source `Allocator::allocate` for `MmioAlloc` (alloc_interface.rs 71-93):
obtain a virtual range from the combined allocator, map each spanned page
to the physical frames starting at `containing(physAddr)` and advancing a
page at a time, and return the virtual base offset by the physical
address's intra-page offset. -/
def mmioAllocate (physAddr : Nat) (layout : Layout) (s : SysState) :
    Nat × SysState :=
  let base := s.virtCursor * 4096
  let n := (pageRange base layout.size).length
  let newMaps := (List.range n).map
    fun k => (base / 4096 + k, 4096 * (physAddr / 4096) + 4096 * k)
  (base + physAddr % 4096,
   { virtCursor := s.virtCursor + (layout.size + 4095) / 4096,
     mapped := s.mapped ++ newMaps,
     freedVirt := s.freedVirt })

/-- Source `SYS_MAPPER.get().unmap(page)`: removing an unmapped page is the
`expect("Tried to deallocate unhandled memory")` panic, modelled as
`none`. -/
def unmapPage (m : List (Nat × Nat)) (pg : Nat) : Option (List (Nat × Nat)) :=
  if m.any fun e => e.1 == pg then some (m.filter fun e => e.1 != pg)
  else none

def unmapPages (m : List (Nat × Nat)) : List Nat → Option (List (Nat × Nat))
  | [] => some m
  | pg :: rest =>
    match unmapPage m pg with
    | none => none
    | some m2 => unmapPages m2 rest

/-- Source `Allocator::deallocate` for `MmioAlloc` (alloc_interface.rs 103-124):
compute the spanned page range, align the pointer down to its page, unmap
every page (panicking on an unmapped page), then return the virtual range
to the combined allocator. -/
def mmioDeallocate (ptr : Nat) (layout : Layout) (s : SysState) :
    Option SysState :=
  match unmapPages s.mapped (pageRange ptr layout.size) with
  | none => none
  | some m2 =>
    some { virtCursor := s.virtCursor, mapped := m2,
           freedVirt := s.freedVirt ++ [(4096 * (ptr / 4096), layout)] }

/-- Source `Allocator::grow` for `MmioAlloc` (alloc_interface.rs 126-135). -/
def mmioGrow (physAddr ptr : Nat) (oldLayout newLayout : Layout)
    (s : SysState) : Option (Nat × SysState) :=
  match mmioDeallocate ptr oldLayout s with
  | none => none
  | some s2 => some (mmioAllocate physAddr newLayout s2)

/-- Source `Allocator::shrink` for `MmioAlloc` (alloc_interface.rs 151-160). -/
def mmioShrink (physAddr ptr : Nat) (oldLayout newLayout : Layout)
    (s : SysState) : Option (Nat × SysState) :=
  match mmioDeallocate ptr oldLayout s with
  | none => none
  | some s2 => some (mmioAllocate physAddr newLayout s2)

/-- C8: for every pointer, layout pair and allocator state, `grow` and
`shrink` each equal the composition `deallocate(ptr, old_layout)` followed
by `allocate(new_layout)`; in particular they agree with each other, and
since the state carries no byte contents the result is exactly that of a
fresh allocation — nothing is copied or preserved from the old mapping. -/
theorem grow_shrink_eq_dealloc_then_alloc (physAddr ptr : Nat)
    (oldLayout newLayout : Layout) (s : SysState) :
    mmioGrow physAddr ptr oldLayout newLayout s =
      (mmioDeallocate ptr oldLayout s).map (mmioAllocate physAddr newLayout) ∧
    mmioShrink physAddr ptr oldLayout newLayout s =
      (mmioDeallocate ptr oldLayout s).map (mmioAllocate physAddr newLayout) ∧
    mmioGrow physAddr ptr oldLayout newLayout s =
      mmioShrink physAddr ptr oldLayout newLayout s := by
  rcases h : mmioDeallocate ptr oldLayout s with _ | s2 <;>
    simp [mmioGrow, mmioShrink, h]

end Mmio

end Hootux
